import Mathlib

/-!
Verification of the Store-Monitor report generator (`src/app/report_logic.py`,
`src/app/crud.py`, `src/app/models.py`).

All timestamps and durations are modelled as integer microseconds (`Int`),
matching Python's `datetime`/`timedelta` microsecond resolution.  A store's
IANA timezone is modelled as a fixed UTC offset in microseconds (all concrete
scenarios settled here use offset 0, i.e. UTC).  Poll records are pairs of a
UTC instant and a status string, exactly the data the estimator loop consumes
after parsing.
-/

namespace StoreMonitor

/-- Microseconds in one day. -/
def dayUs : Int := 86400000000

/-- Microseconds in one hour. -/
def hourUs : Int := 3600000000

/-- Microseconds in one second. -/
def secUs : Int := 1000000

/-- Midnight (UTC) of the calendar date containing instant `t`, in µs since
the epoch.  This is `datetime.date()` of a UTC datetime. -/
def dateFloor (t : Int) : Int := dayUs * (Int.fdiv t dayUs)

/-- Python's `datetime.weekday()`: 0 = Monday.  Epoch day 0 (1970-01-01) was a
Thursday, i.e. weekday 3. -/
def weekday (t : Int) : Int := Int.emod (Int.fdiv t dayUs + 3) 7

/-- A business-hours dictionary: `day_of_week ↦ (open, close)` with the two
times in µs since local midnight (`crud.get_business_hours`). -/
abbrev Schedule := Int → Option (Int × Int)

/-- The 24×7 default used when a store has no business-hours rows
(`report_logic.py` line 96): every day of week 0..6 maps to
`('00:00:00', '23:59:59')`. -/
def default24x7 : Schedule :=
  fun d => if 0 ≤ d ∧ d < 7 then some (0, 86399 * secUs) else none

/-- Business-hour intervals in UTC, as built at `report_logic.py` lines
106-123: `for i in range(7)` take `day = now - i days`, look up the schedule
entry for `day.weekday()` (a UTC weekday), combine `day.date()` (the UTC
calendar date) with the open/close times, interpret that wall time at the
store's offset and convert to UTC. -/
def businessIntervals (now : Int) (sched : Schedule) (tzOffset : Int) :
    List (Int × Int) :=
  (List.range 7).filterMap (fun (i : Nat) =>
    match sched (weekday (now - (i : Int) * dayUs)) with
    | none => none
    | some oc =>
        some (dateFloor (now - (i : Int) * dayUs) + oc.1 - tzOffset,
              dateFloor (now - (i : Int) * dayUs) + oc.2 - tzOffset))

/-- A status segment `[start, stop)` tagged with one status string. -/
structure Seg where
  start : Int
  stop : Int
  status : String
deriving DecidableEq, Repr

/-- The estimator loop of `report_logic.py` lines 131-169: starting from
`last_poll_time` and `current_status`, each poll closes the segment
`[last, t_poll)` tagged with the current status, then the status becomes the
poll's status; after the loop the final segment `[last, now)` is emitted. -/
def segmentsAux (last : Int) (cur : String) (now : Int) :
    List (Int × String) → List Seg
  | [] => [⟨last, now, cur⟩]
  | (t, st) :: rest => ⟨last, t, cur⟩ :: segmentsAux t st now rest

/-- The status segments for one store: boundaries are
`weekStart, t(p_1), …, t(p_n), now`; the initial status is `status(p_1)`
when polls exist (carry-back, line 133) and `"active"` otherwise. -/
def statusSegments (weekStart now : Int) (polls : List (Int × String)) :
    List Seg :=
  segmentsAux weekStart
    (match polls with | [] => "active" | (_, s) :: _ => s) now polls

/-- Length of the intersection of `[s, e)` and `[b1, b2)`
(`report_logic.py` lines 150-155: the overlap is counted only when
`overlap_start < overlap_end`, which equals taking `max 0`). -/
def overlapLen (s e b1 b2 : Int) : Int := max 0 (min e b2 - max s b1)

/-- Total overlap of one status interval with all business intervals. -/
def segOverlap (biz : List (Int × Int)) (s e : Int) : Int :=
  (biz.map (fun b => overlapLen s e b.1 b.2)).sum

/-- One step of the uptime/downtime accumulation (`report_logic.py` lines
154-160 and 175-180): the segment's overlap is added to uptime when the
status is `"active"`, else to downtime. -/
def accStep (biz : List (Int × Int)) (acc : Int × Int) (sg : Seg) : Int × Int :=
  if sg.status = "active" then (acc.1 + segOverlap biz sg.start sg.stop, acc.2)
  else (acc.1, acc.2 + segOverlap biz sg.start sg.stop)

/-- The accumulation of `total_uptime` / `total_downtime`
(`report_logic.py` lines 126-180). -/
def accumulate (biz : List (Int × Int)) (segs : List Seg) : Int × Int :=
  segs.foldl (accStep biz) (0, 0)

/-- CPython `timedelta // int` true division with rounding to the nearest
microsecond, ties to even (`_divide_and_round` in `datetime.py`), for a
positive divisor. -/
def tdDiv (a n : Int) : Int :=
  if 2 * (a - Int.fdiv a n * n) > n ∨
     (2 * (a - Int.fdiv a n * n) = n ∧ Int.emod (Int.fdiv a n) 2 = 1) then
    Int.fdiv a n + 1
  else Int.fdiv a n

/-- Round a rational to the nearest integer, ties to even (the rounding of
Python's built-in `round`). -/
def rndHalfEven (q : ℚ) : Int :=
  if q - ⌊q⌋ < 1 / 2 then ⌊q⌋
  else if 1 / 2 < q - ⌊q⌋ then ⌊q⌋ + 1
  else if Int.emod ⌊q⌋ 2 = 0 then ⌊q⌋ else ⌊q⌋ + 1

/-- Python `round(x, 2)`: round to two decimal places, ties to even. -/
def round2 (q : ℚ) : ℚ := (rndHalfEven (q * 100) : ℚ) / 100

/-- `timedelta.total_seconds() / 60` from a µs count: minutes. -/
def usToMinutes (a : Int) : ℚ := (a : ℚ) / 60000000

/-- `timedelta.total_seconds() / 3600` from a µs count: hours. -/
def usToHours (a : Int) : ℚ := (a : ℚ) / 3600000000

/-- `uptime_last_day` / `downtime_last_day` in µs (`report_logic.py` lines
185-186): the week total if the horizon is at most one day, else the week
total divided by 7. -/
def lastDayUs (now weekStart weekTotal : Int) : Int :=
  if now - weekStart ≤ dayUs then weekTotal else tdDiv weekTotal 7

/-- `uptime_last_hour` / `downtime_last_hour` in µs (`report_logic.py` lines
187-188): the day value if the horizon is at most one hour, else the day
value divided by 24. -/
def lastHourUs (now weekStart dayTotal : Int) : Int :=
  if now - weekStart ≤ hourUs then dayTotal else tdDiv dayTotal 24

/-- The six emitted metrics of one report row. -/
structure Metrics where
  uptimeLastHour : ℚ
  uptimeLastDay : ℚ
  uptimeLastWeek : ℚ
  downtimeLastHour : ℚ
  downtimeLastDay : ℚ
  downtimeLastWeek : ℚ
deriving DecidableEq, Repr

/-- The aggregation and rounding of `report_logic.py` lines 185-198. -/
def aggregateMetrics (now weekStart upWeek dnWeek : Int) : Metrics :=
  { uptimeLastHour :=
      round2 (usToMinutes (lastHourUs now weekStart (lastDayUs now weekStart upWeek)))
    uptimeLastDay := round2 (usToHours (lastDayUs now weekStart upWeek))
    uptimeLastWeek := round2 (usToHours upWeek)
    downtimeLastHour :=
      round2 (usToMinutes (lastHourUs now weekStart (lastDayUs now weekStart dnWeek)))
    downtimeLastDay := round2 (usToHours (lastDayUs now weekStart dnWeek))
    downtimeLastWeek := round2 (usToHours dnWeek) }

/-- Per-store input: the store id, its timezone (fixed UTC offset model), its
business-hours dictionary (`none` = no rows, defaulting to 24×7), and its
polls in `[now − 7d, now]`, ascending. -/
structure StoreInput where
  storeId : String
  tzOffset : Int
  schedule : Option Schedule
  polls : List (Int × String)

/-- The schedule actually used: the store's own or the 24×7 default
(`report_logic.py` lines 93-96). -/
def effSchedule (s : Option Schedule) : Schedule := s.getD default24x7

/-- `start_of_week = max_timestamp_utc - timedelta(days=7)` (line 99). -/
def weekStartOf (now : Int) : Int := now - 7 * dayUs

/-- The week-long uptime/downtime totals for one store, in µs. -/
def perStoreTotals (now : Int) (st : StoreInput) : Int × Int :=
  accumulate (businessIntervals now (effSchedule st.schedule) st.tzOffset)
    (statusSegments (weekStartOf now) now st.polls)

/-- The six metrics emitted for one store. -/
def perStoreMetrics (now : Int) (st : StoreInput) : Metrics :=
  aggregateMetrics now (weekStartOf now) (perStoreTotals now st).1
    (perStoreTotals now st).2

/-- Clip an interval to `[lo, hi)` (the spec's §4.5 clipping operation). -/
def clipTo (lo hi : Int) (b : Int × Int) : Int × Int := (max b.1 lo, min b.2 hi)

/-- Modelled from the spec (§4.5): the uptime/downtime totals obtained by
re-running the Overlap Accumulator with the business windows clipped to
`[winLo, now)`.  This clipped-interval aggregation is absent from
`report_logic.py`, which instead divides the week totals. -/
def clippedTotals (now : Int) (st : StoreInput) (winLo : Int) : Int × Int :=
  accumulate
    ((businessIntervals now (effSchedule st.schedule) st.tzOffset).map
      (clipTo winLo now))
    (statusSegments (weekStartOf now) now st.polls)

/-- The total scheduled business-hour duration inside `[winLo, now)`: the sum
over the store's business intervals of their overlap with that window. -/
def scheduledIn (now : Int) (st : StoreInput) (winLo : Int) : Int :=
  ((businessIntervals now (effSchedule st.schedule) st.tzOffset).map
    (fun b => overlapLen winLo now b.1 b.2)).sum

/-- A value of the per-store report dictionary: the store id is a string, the
six metrics are numbers. -/
inductive Field where
  | str (s : String)
  | num (q : ℚ)
deriving DecidableEq, Repr

/-- The per-store report dictionary of `report_logic.py` lines 191-199, with
its keys in insertion order. -/
def mkRow (st : StoreInput) (m : Metrics) : List (String × Field) :=
  [("store_id", Field.str st.storeId),
   ("uptime_last_hour", Field.num m.uptimeLastHour),
   ("uptime_last_day", Field.num m.uptimeLastDay),
   ("uptime_last_week", Field.num m.uptimeLastWeek),
   ("downtime_last_hour", Field.num m.downtimeLastHour),
   ("downtime_last_day", Field.num m.downtimeLastDay),
   ("downtime_last_week", Field.num m.downtimeLastWeek)]

/-- The report body: one row per store, in the order the store-id set is
iterated (`for store_id in all_store_ids`, line 84); `pandas.to_csv`
preserves this row order. -/
def generateRows (now : Int) (stores : List StoreInput) :
    List (List (String × Field)) :=
  stores.map (fun st => mkRow st (perStoreMetrics now st))

/-- The `store_id` column of the report body, in emitted row order. -/
def rowsStoreIds (rows : List (List (String × Field))) : List String :=
  rows.filterMap (fun r =>
    match r with
    | ("store_id", Field.str s) :: _ => some s
    | _ => none)

/-- `generate_report` as a fallible computation.  `maxTs` is the result of
`get_max_timestamp` (`crud.py` line 165), which is `None` when the
`store_status` table is empty; `report_logic.py` line 69 then evaluates
`' UTC' in None`, raising `TypeError`. -/
def generateReportE (maxTs : Option Int) (stores : List StoreInput) :
    Except String (List (List (String × Field))) :=
  match maxTs with
  | none => Except.error "TypeError: argument of type NoneType is not iterable"
  | some now => Except.ok (generateRows now stores)

/-- The final status of the report record.  `generate_report` creates the
record as `'Running'` (line 53), updates it to `'Complete'` on success
(line 210), and has a `try`/`finally` with no `except` clause, so an
exception propagates and the record keeps its initial `'Running'` status. -/
def finalReportStatus (maxTs : Option Int) (stores : List StoreInput) : String :=
  match generateReportE maxTs stores with
  | Except.ok _ => "Complete"
  | Except.error _ => "Running"

/-- A `store_report` row (`models.py` lines 78-97): `report_data` is a
nullable column, `NULL` until the report completes. -/
structure ReportRecord where
  status : String
  reportData : Option String

/-- Python's `str` applied to an optional string: `str(None) = "None"`. -/
def pyStr : Option String → String
  | none => "None"
  | some s => s

/-- `get_report_status` (`report_logic.py` lines 236-247): a missing record
yields `("Not Found", None)`; otherwise the record's status and
`str(report.report_data)` are returned. -/
def getReportStatus (rec : Option ReportRecord) : String × Option String :=
  match rec with
  | none => ("Not Found", none)
  | some r => (r.status, some (pyStr r.reportData))

/-- Modelled from the spec (§4.2), a construction absent from the source:
enumerate the 8 local calendar dates covering `[now − 7d, now]` (the local
date of `now` in the store's zone and the seven preceding dates), look up each
date's schedule entry by its weekday, localize the open/close times at the
store's offset and convert to UTC. -/
def businessIntervalsSpec (now : Int) (sched : Schedule) (tzOffset : Int) :
    List (Int × Int) :=
  (List.range 8).filterMap (fun (i : Nat) =>
    match sched (weekday (dateFloor (now + tzOffset) - (i : Int) * dayUs)) with
    | none => none
    | some oc =>
        some (dateFloor (now + tzOffset) - (i : Int) * dayUs + oc.1 - tzOffset,
              dateFloor (now + tzOffset) - (i : Int) * dayUs + oc.2 - tzOffset))

/-! ### Helper lemmas: interval overlap, the status-signal chain, and the
accumulator's algebra. -/

theorem overlapLen_nonneg (s e b1 b2 : Int) : 0 ≤ overlapLen s e b1 b2 :=
  le_max_left 0 _

theorem overlapLen_split {s t e : Int} (h1 : s ≤ t) (h2 : t ≤ e) (b1 b2 : Int) :
    overlapLen s t b1 b2 + overlapLen t e b1 b2 = overlapLen s e b1 b2 := by
  simp only [overlapLen]
  omega

theorem segOverlap_nonneg (biz : List (Int × Int)) (s e : Int) :
    0 ≤ segOverlap biz s e := by
  induction biz with
  | nil => simp [segOverlap]
  | cons b bs ih =>
      simp only [segOverlap, List.map_cons, List.sum_cons] at ih ⊢
      have := overlapLen_nonneg s e b.1 b.2
      omega

theorem chain_le_append_last :
    ∀ (l : List Int) (a c : Int), List.Chain (· ≤ ·) a (l ++ [c]) → a ≤ c := by
  intro l
  induction l with
  | nil =>
      intro a c h
      rw [List.nil_append, List.chain_cons] at h
      exact h.1
  | cons x xs ih =>
      intro a c h
      rw [List.cons_append, List.chain_cons] at h
      exact le_trans h.1 (ih x c h.2)

theorem segmentsAux_overlap_sum (b1 b2 : Int) :
    ∀ (polls : List (Int × String)) (last : Int) (cur : String) (now : Int),
      List.Chain (· ≤ ·) last (polls.map Prod.fst ++ [now]) →
      ((segmentsAux last cur now polls).map
        (fun sg => overlapLen sg.start sg.stop b1 b2)).sum =
        overlapLen last now b1 b2 := by
  intro polls
  induction polls with
  | nil =>
      intro last cur now _
      simp [segmentsAux]
  | cons p rest ih =>
      intro last cur now h
      rw [List.map_cons, List.cons_append, List.chain_cons] at h
      have hlast : p.1 ≤ now := chain_le_append_last (rest.map Prod.fst) p.1 now h.2
      have hrec := ih p.1 p.2 now h.2
      calc ((segmentsAux last cur now (p :: rest)).map
              (fun sg => overlapLen sg.start sg.stop b1 b2)).sum
          = overlapLen last p.1 b1 b2 +
              ((segmentsAux p.1 p.2 now rest).map
                (fun sg => overlapLen sg.start sg.stop b1 b2)).sum := by
            simp [segmentsAux]
        _ = overlapLen last p.1 b1 b2 + overlapLen p.1 now b1 b2 := by rw [hrec]
        _ = overlapLen last now b1 b2 := overlapLen_split h.1 hlast b1 b2

theorem sum_map_add_int {α : Type} (l : List α) (f g : α → Int) :
    (l.map (fun x => f x + g x)).sum = (l.map f).sum + (l.map g).sum := by
  induction l with
  | nil => simp
  | cons x xs ih =>
      simp only [List.map_cons, List.sum_cons, ih]
      ring

theorem segmentsAux_segOverlap_sum (polls : List (Int × String)) (last : Int)
    (cur : String) (now : Int)
    (h : List.Chain (· ≤ ·) last (polls.map Prod.fst ++ [now])) :
    ∀ biz : List (Int × Int),
      ((segmentsAux last cur now polls).map
        (fun sg => segOverlap biz sg.start sg.stop)).sum =
        (biz.map (fun b => overlapLen last now b.1 b.2)).sum := by
  intro biz
  induction biz with
  | nil => simp [segOverlap]
  | cons b bs ih =>
      have hsplit :
          ((segmentsAux last cur now polls).map
            (fun sg => segOverlap (b :: bs) sg.start sg.stop)).sum =
          ((segmentsAux last cur now polls).map
            (fun sg => overlapLen sg.start sg.stop b.1 b.2)).sum +
          ((segmentsAux last cur now polls).map
            (fun sg => segOverlap bs sg.start sg.stop)).sum := by
        rw [← sum_map_add_int]
        rfl
      rw [hsplit, segmentsAux_overlap_sum b.1 b.2 polls last cur now h, ih,
        List.map_cons, List.sum_cons]

theorem accumulate_shift (biz : List (Int × Int)) :
    ∀ (segs : List Seg) (a b : Int),
      segs.foldl (accStep biz) (a, b) =
        (a + (accumulate biz segs).1, b + (accumulate biz segs).2) := by
  intro segs
  induction segs with
  | nil => intro a b; simp [accumulate]
  | cons sg rest ih =>
      intro a b
      by_cases hst : sg.status = "active"
      · have h1 : (sg :: rest).foldl (accStep biz) (a, b) =
            rest.foldl (accStep biz) (a + segOverlap biz sg.start sg.stop, b) := by
          simp [accStep, hst]
        have h2 : accumulate biz (sg :: rest) =
            rest.foldl (accStep biz) (segOverlap biz sg.start sg.stop, 0) := by
          simp [accumulate, accStep, hst]
        rw [h1, ih, h2, ih]
        simp [Prod.ext_iff]
        omega
      · have h1 : (sg :: rest).foldl (accStep biz) (a, b) =
            rest.foldl (accStep biz) (a, b + segOverlap biz sg.start sg.stop) := by
          simp [accStep, hst]
        have h2 : accumulate biz (sg :: rest) =
            rest.foldl (accStep biz) (0, segOverlap biz sg.start sg.stop) := by
          simp [accumulate, accStep, hst]
        rw [h1, ih, h2, ih]
        simp [Prod.ext_iff]
        omega

theorem accumulate_cons (biz : List (Int × Int)) (sg : Seg) (rest : List Seg) :
    accumulate biz (sg :: rest) =
      if sg.status = "active" then
        (segOverlap biz sg.start sg.stop + (accumulate biz rest).1,
          (accumulate biz rest).2)
      else
        ((accumulate biz rest).1,
          segOverlap biz sg.start sg.stop + (accumulate biz rest).2) := by
  by_cases hst : sg.status = "active" <;>
    simp [accumulate, accStep, hst, accumulate_shift]

theorem accumulate_fst_nonneg (biz : List (Int × Int)) (segs : List Seg) :
    0 ≤ (accumulate biz segs).1 := by
  induction segs with
  | nil => simp [accumulate]
  | cons sg rest ih =>
      rw [accumulate_cons]
      have := segOverlap_nonneg biz sg.start sg.stop
      by_cases hst : sg.status = "active" <;> simp [hst] <;> omega

theorem accumulate_snd_nonneg (biz : List (Int × Int)) (segs : List Seg) :
    0 ≤ (accumulate biz segs).2 := by
  induction segs with
  | nil => simp [accumulate]
  | cons sg rest ih =>
      rw [accumulate_cons]
      have := segOverlap_nonneg biz sg.start sg.stop
      by_cases hst : sg.status = "active" <;> simp [hst] <;> omega

theorem accumulate_add_eq_sum (biz : List (Int × Int)) (segs : List Seg) :
    (accumulate biz segs).1 + (accumulate biz segs).2 =
      (segs.map (fun sg => segOverlap biz sg.start sg.stop)).sum := by
  induction segs with
  | nil => simp [accumulate]
  | cons sg rest ih =>
      rw [accumulate_cons]
      by_cases hst : sg.status = "active" <;> simp [hst] <;> omega

/-! ### Arithmetic lemmas: timedelta division, half-even rounding, horizons. -/

theorem tdDiv_decomp (a n : Int) (hn : 0 < n) :
    a = n * Int.fdiv a n + (a - Int.fdiv a n * n) ∧
      0 ≤ a - Int.fdiv a n * n ∧ a - Int.fdiv a n * n < n := by
  rw [Int.fdiv_eq_ediv a (le_of_lt hn)]
  have he := Int.ediv_add_emod a n
  have hm : n * (a / n) = a / n * n := mul_comm _ _
  have h0 := Int.emod_nonneg a (ne_of_gt hn)
  have h1 := Int.emod_lt_of_pos a hn
  exact ⟨by linarith, by linarith, by linarith⟩

theorem tdDiv_nonneg {a : Int} (n : Int) (ha : 0 ≤ a) (hn : 0 < n) :
    0 ≤ tdDiv a n := by
  have hq : 0 ≤ Int.fdiv a n := Int.fdiv_nonneg ha (le_of_lt hn)
  unfold tdDiv
  split <;> omega

theorem tdDiv_le_self7 {a : Int} (ha : 0 ≤ a) : tdDiv a 7 ≤ a := by
  have hd := tdDiv_decomp a 7 (by norm_num)
  have hq : 0 ≤ Int.fdiv a 7 := Int.fdiv_nonneg ha (by norm_num)
  unfold tdDiv
  split_ifs with h <;> omega

theorem tdDiv_le_self24 {a : Int} (ha : 0 ≤ a) : tdDiv a 24 ≤ a := by
  have hd := tdDiv_decomp a 24 (by norm_num)
  have hq : 0 ≤ Int.fdiv a 24 := Int.fdiv_nonneg ha (by norm_num)
  unfold tdDiv
  split_ifs with h <;> omega

theorem rndHalfEven_ge_floor (q : ℚ) : ⌊q⌋ ≤ rndHalfEven q := by
  unfold rndHalfEven
  split_ifs <;> omega

theorem rndHalfEven_le_floor_succ (q : ℚ) : rndHalfEven q ≤ ⌊q⌋ + 1 := by
  unfold rndHalfEven
  split_ifs <;> omega

theorem rndHalfEven_nonneg {q : ℚ} (hq : 0 ≤ q) : 0 ≤ rndHalfEven q := by
  have hf : (0 : Int) ≤ ⌊q⌋ := Int.le_floor.mpr (by exact_mod_cast hq)
  have := rndHalfEven_ge_floor q
  omega

theorem rndHalfEven_le (q : ℚ) : (rndHalfEven q : ℚ) ≤ q + 1 / 2 := by
  have hfl : (⌊q⌋ : ℚ) ≤ q := Int.floor_le q
  unfold rndHalfEven
  split_ifs with h1 h2 h3 <;> push_cast <;> linarith

theorem rndHalfEven_mono {a b : ℚ} (hab : a ≤ b) :
    rndHalfEven a ≤ rndHalfEven b := by
  have hfab : ⌊a⌋ ≤ ⌊b⌋ := Int.floor_le_floor hab
  rcases lt_or_eq_of_le hfab with hlt | heq
  · have h1 := rndHalfEven_le_floor_succ a
    have h2 := rndHalfEven_ge_floor b
    omega
  · by_cases h1 : a - ⌊a⌋ < 1 / 2
    · have ha : rndHalfEven a = ⌊a⌋ := by unfold rndHalfEven; (split_ifs; tauto)
      have := rndHalfEven_ge_floor b
      omega
    · have hfrac : (1 : ℚ) / 2 ≤ b - ⌊b⌋ := by
        rw [← heq]
        linarith [not_lt.mp h1]
      have hb1 : ¬ b - ⌊b⌋ < 1 / 2 := not_lt.mpr hfrac
      by_cases h2 : 1 / 2 < a - ⌊a⌋
      · have hb2 : 1 / 2 < b - ⌊b⌋ := by rw [← heq]; linarith
        have ha : rndHalfEven a = ⌊a⌋ + 1 := by
          unfold rndHalfEven; (split_ifs; tauto)
        have hb : rndHalfEven b = ⌊b⌋ + 1 := by
          unfold rndHalfEven; (split_ifs; tauto)
        omega
      · -- a sits exactly on the half: the tie branch
        by_cases hpar : Int.emod ⌊a⌋ 2 = 0
        · have ha : rndHalfEven a = ⌊a⌋ := by
            unfold rndHalfEven; (split_ifs; tauto)
          have := rndHalfEven_ge_floor b
          omega
        · have ha : rndHalfEven a = ⌊a⌋ + 1 := by
            unfold rndHalfEven; (split_ifs; tauto)
          by_cases hb2 : 1 / 2 < b - ⌊b⌋
          · have hb : rndHalfEven b = ⌊b⌋ + 1 := by
              unfold rndHalfEven; (split_ifs; tauto)
            omega
          · have hparb : ¬ Int.emod ⌊b⌋ 2 = 0 := by rw [← heq]; exact hpar
            have hb : rndHalfEven b = ⌊b⌋ + 1 := by
              unfold rndHalfEven; (split_ifs; tauto)
            omega

theorem round2_nonneg {q : ℚ} (hq : 0 ≤ q) : 0 ≤ round2 q := by
  unfold round2
  have h : 0 ≤ rndHalfEven (q * 100) := rndHalfEven_nonneg (by positivity)
  positivity

theorem round2_le (q : ℚ) : round2 q ≤ q + 1 / 200 := by
  unfold round2
  have h := rndHalfEven_le (q * 100)
  linarith

theorem round2_mono {a b : ℚ} (hab : a ≤ b) : round2 a ≤ round2 b := by
  unfold round2
  have h : rndHalfEven (a * 100) ≤ rndHalfEven (b * 100) :=
    rndHalfEven_mono (by linarith)
  have h2 : ((rndHalfEven (a * 100) : Int) : ℚ) ≤ rndHalfEven (b * 100) := by
    exact_mod_cast h
  linarith

theorem round2_zero : round2 0 = 0 := by
  have h : rndHalfEven 0 = 0 := by
    unfold rndHalfEven
    norm_num
  unfold round2
  rw [zero_mul, h]
  norm_num

theorem usToHours_nonneg {a : Int} (ha : 0 ≤ a) : 0 ≤ usToHours a := by
  unfold usToHours
  positivity

theorem usToMinutes_nonneg {a : Int} (ha : 0 ≤ a) : 0 ≤ usToMinutes a := by
  unfold usToMinutes
  positivity

theorem usToHours_mono {a b : Int} (hab : a ≤ b) : usToHours a ≤ usToHours b := by
  unfold usToHours
  have : (a : ℚ) ≤ b := by exact_mod_cast hab
  linarith

theorem usToHours_add (a b : Int) :
    usToHours (a + b) = usToHours a + usToHours b := by
  unfold usToHours
  push_cast
  ring

theorem usToMinutes_div_60 (a : Int) : usToMinutes a / 60 = usToHours a := by
  unfold usToMinutes usToHours
  ring

/-- In `generate_report` the horizon is always exactly 7 days
(`start_of_week = max_timestamp_utc - timedelta(days=7)`, line 99), so the
`<= timedelta(days=1)` guard of line 185 is always false and the week total
is always divided by 7. -/
theorem lastDayUs_week_horizon (now x : Int) :
    lastDayUs now (weekStartOf now) x = tdDiv x 7 := by
  unfold lastDayUs weekStartOf dayUs
  norm_num

/-- Likewise the `<= timedelta(hours=1)` guard of line 187 is always false
and the day value is always divided by 24. -/
theorem lastHourUs_week_horizon (now x : Int) :
    lastHourUs now (weekStartOf now) x = tdDiv x 24 := by
  unfold lastHourUs weekStartOf dayUs hourUs
  norm_num

/-! ### Structure of the status signal. -/

theorem segmentsAux_ne_nil (polls : List (Int × String)) (last : Int)
    (cur : String) (now : Int) : segmentsAux last cur now polls ≠ [] := by
  cases polls <;> simp [segmentsAux]

theorem segmentsAux_head (polls : List (Int × String)) (last : Int)
    (cur : String) (now : Int) :
    (segmentsAux last cur now polls).head? =
      some ⟨last, (match polls with | [] => now | p :: _ => p.1), cur⟩ := by
  cases polls <;> rfl

theorem segmentsAux_getLast? :
    ∀ (polls : List (Int × String)) (last : Int) (cur : String) (now : Int),
      ∃ s st, (segmentsAux last cur now polls).getLast? = some ⟨s, now, st⟩ := by
  intro polls
  induction polls with
  | nil => intro last cur now; exact ⟨last, cur, rfl⟩
  | cons p rest ih =>
      intro last cur now
      obtain ⟨s, st, hst⟩ := ih p.1 p.2 now
      refine ⟨s, st, ?_⟩
      cases rest with
      | nil =>
          simp [segmentsAux] at hst ⊢
          exact hst
      | cons q qs =>
          rw [show segmentsAux last cur now (p :: q :: qs) =
                ⟨last, p.1, cur⟩ :: ⟨p.1, q.1, p.2⟩ :: segmentsAux q.1 q.2 now qs
              from rfl,
            List.getLast?_cons_cons]
          rw [show segmentsAux p.1 p.2 now (q :: qs) =
                ⟨p.1, q.1, p.2⟩ :: segmentsAux q.1 q.2 now qs from rfl] at hst
          exact hst

theorem segmentsAux_chain' :
    ∀ (polls : List (Int × String)) (last : Int) (cur : String) (now : Int),
      List.Chain' (fun a b => a.stop = b.start) (segmentsAux last cur now polls) := by
  intro polls
  induction polls with
  | nil => intro last cur now; simp [segmentsAux]
  | cons p rest ih =>
      intro last cur now
      refine List.Chain'.cons' (ih p.1 p.2 now) ?_
      intro b hb
      rw [segmentsAux_head rest p.1 p.2 now] at hb
      simp at hb
      rw [← hb]

theorem segmentsAux_bounds :
    ∀ (polls : List (Int × String)) (last : Int) (cur : String) (now : Int),
      List.Chain (· ≤ ·) last (polls.map Prod.fst ++ [now]) →
      ∀ sg ∈ segmentsAux last cur now polls,
        last ≤ sg.start ∧ sg.start ≤ sg.stop ∧ sg.stop ≤ now := by
  intro polls
  induction polls with
  | nil =>
      intro last cur now h sg hsg
      simp only [List.map_nil, List.nil_append, List.chain_cons] at h
      simp [segmentsAux] at hsg
      subst hsg
      exact ⟨le_refl _, h.1, le_refl _⟩
  | cons p rest ih =>
      intro last cur now h sg hsg
      rw [List.map_cons, List.cons_append, List.chain_cons] at h
      have hpn : p.1 ≤ now := chain_le_append_last (rest.map Prod.fst) p.1 now h.2
      rw [show segmentsAux last cur now (p :: rest) =
            ⟨last, p.1, cur⟩ :: segmentsAux p.1 p.2 now rest from rfl,
        List.mem_cons] at hsg
      rcases hsg with rfl | hsg
      · exact ⟨le_refl _, h.1, hpn⟩
      · have := ih p.1 p.2 now h.2 sg hsg
        exact ⟨le_trans h.1 this.1, this.2.1, this.2.2⟩

theorem segmentsAux_pairwise :
    ∀ (polls : List (Int × String)) (last : Int) (cur : String) (now : Int),
      List.Chain (· ≤ ·) last (polls.map Prod.fst ++ [now]) →
      List.Pairwise (fun a b => a.stop ≤ b.start) (segmentsAux last cur now polls) := by
  intro polls
  induction polls with
  | nil => intro last cur now _; simp [segmentsAux]
  | cons p rest ih =>
      intro last cur now h
      rw [List.map_cons, List.cons_append, List.chain_cons] at h
      refine List.Pairwise.cons ?_ (ih p.1 p.2 now h.2)
      intro sg hsg
      exact (segmentsAux_bounds rest p.1 p.2 now h.2 sg hsg).1

theorem segmentsAux_coverage :
    ∀ (polls : List (Int × String)) (last : Int) (cur : String) (now : Int),
      List.Chain (· ≤ ·) last (polls.map Prod.fst ++ [now]) →
      ∀ x : Int,
        (∃ sg ∈ segmentsAux last cur now polls, sg.start ≤ x ∧ x < sg.stop) ↔
          last ≤ x ∧ x < now := by
  intro polls
  induction polls with
  | nil =>
      intro last cur now _ x
      simp [segmentsAux]
  | cons p rest ih =>
      intro last cur now h x
      rw [List.map_cons, List.cons_append, List.chain_cons] at h
      have hpn : p.1 ≤ now := chain_le_append_last (rest.map Prod.fst) p.1 now h.2
      have hrec := ih p.1 p.2 now h.2 x
      constructor
      · rintro ⟨sg, hsg, hx1, hx2⟩
        rw [show segmentsAux last cur now (p :: rest) =
              ⟨last, p.1, cur⟩ :: segmentsAux p.1 p.2 now rest from rfl,
          List.mem_cons] at hsg
        rcases hsg with rfl | hsg
        · exact ⟨hx1, lt_of_lt_of_le hx2 hpn⟩
        · have := hrec.mp ⟨sg, hsg, hx1, hx2⟩
          exact ⟨le_trans h.1 this.1, this.2⟩
      · rintro ⟨hx1, hx2⟩
        by_cases hxp : x < p.1
        · exact ⟨⟨last, p.1, cur⟩, List.mem_cons_self _ _, hx1, hxp⟩
        · obtain ⟨sg, hsg, hb⟩ := hrec.mpr ⟨not_lt.mp hxp, hx2⟩
          exact ⟨sg, List.mem_cons_of_mem _ hsg, hb⟩

/-! ### Concrete scenario inputs.

`now0` is 1970-01-14 12:00:00 UTC (epoch day 13, a Wednesday), a reference
instant at noon so the analysis interval `[now0 − 7d, now0]` starts at noon
on 1970-01-07. -/

def now0 : Int := 1166400000000

/-- The spec's S4 store: UTC zone, no business-hours rows (24×7 default), a
single poll with status `inactive` three days before `now0`. -/
def st1 : StoreInput := ⟨"s1", 0, none, [(now0 - 3 * dayUs, "inactive")]⟩

/-- A store open all day on Mondays only (one business-hours row
`(0, 00:00:00, 23:59:59)`), UTC zone, no polls. -/
def schedMon : Schedule := fun d => if d = 0 then some (0, 86399 * secUs) else none

def st3 : StoreInput := ⟨"s3", 0, some schedMon, []⟩

/-- A store open 100 seconds on Mondays (row `(0, 00:00:00, 00:01:40)`),
UTC zone, no polls. -/
def schedC9 : Schedule := fun d => if d = 0 then some (0, 100 * secUs) else none

def st9 : StoreInput := ⟨"s9", 0, some schedC9, []⟩

/-- A store present in the timezone table (UTC) with zero poll rows. -/
def stE : StoreInput := ⟨"e", 0, none, []⟩

def stA : StoreInput := ⟨"a", 0, none, []⟩

def stB : StoreInput := ⟨"b", 0, none, []⟩

/-! ### Claim theorems. -/

/-- C1: the last-day metrics are NOT the clipped-interval totals: the guard
`max_timestamp_utc - start_of_week <= timedelta(days=1)` is false for every
store (the horizon is always exactly 7 days), so the code always divides the
week totals by 7 (and by a further 24 for the hour metrics).  At the S4
input the code emits `downtime_last_day = 22.29` while the clipped-interval
accumulation over `[now−24h, now)` yields `24.00`. -/
theorem claim_C1_divide_by_seven :
    (∀ now upWeek dnWeek : Int,
        (aggregateMetrics now (weekStartOf now) upWeek dnWeek).uptimeLastDay =
          round2 (usToHours (tdDiv upWeek 7)) ∧
        (aggregateMetrics now (weekStartOf now) upWeek dnWeek).downtimeLastDay =
          round2 (usToHours (tdDiv dnWeek 7)) ∧
        (aggregateMetrics now (weekStartOf now) upWeek dnWeek).uptimeLastHour =
          round2 (usToMinutes (tdDiv (tdDiv upWeek 7) 24))) ∧
    (perStoreMetrics now0 st1).downtimeLastDay = 2229 / 100 ∧
    round2 (usToHours (clippedTotals now0 st1 (now0 - dayUs)).2) = 24 ∧
    ((2229 : ℚ) / 100 ≠ 24) := by
  refine ⟨?_, ?_, ?_, by norm_num⟩
  · intro now upWeek dnWeek
    refine ⟨?_, ?_, ?_⟩ <;>
      simp [aggregateMetrics, lastDayUs_week_horizon, lastHourUs_week_horizon]
  · have ht : perStoreTotals now0 st1 = (0, 561594000000) := by decide
    have h7 : tdDiv 561594000000 7 = 80227714286 := by decide
    simp only [perStoreMetrics, ht, aggregateMetrics, lastDayUs_week_horizon, h7]
    norm_num [round2, rndHalfEven, usToHours]
  · have hc : (clippedTotals now0 st1 (now0 - dayUs)).2 = 86399000000 := by decide
    rw [hc]
    norm_num [round2, rndHalfEven, usToHours]

/-- C2: `generate_report` has no `except` clause and `fail_report` does not
exist anywhere in the code, so an empty poll table (where
`get_max_timestamp` returns `None` and line 69 raises `TypeError`) leaves
the report record in its initial `'Running'` status, and no error path ever
produces a `'Failed'` record. -/
theorem claim_C2_report_left_running :
    (∀ stores : List StoreInput, finalReportStatus none stores = "Running") ∧
    (∀ (maxTs : Option Int) (stores : List StoreInput),
        finalReportStatus maxTs stores ≠ "Failed") := by
  constructor
  · intro stores
    rfl
  · intro maxTs stores
    cases maxTs <;> simp [finalReportStatus, generateReportE]

/-- C4 counterexample: with the store-id set enumerated in the order
`["b", "a"]`, the emitted rows keep that order; they are not sorted
lexicographically by `store_id`. -/
theorem claim_C4_counterexample :
    rowsStoreIds (generateRows now0 [stB, stA]) = ["b", "a"] ∧
    ¬ List.Sorted (· ≤ ·) (rowsStoreIds (generateRows now0 [stB, stA])) := by
  have h : rowsStoreIds (generateRows now0 [stB, stA]) = ["b", "a"] := by decide
  refine ⟨h, ?_⟩
  rw [h]
  intro hs
  have hba : ("b" : String) ≤ "a" := List.rel_of_sorted_cons hs "a" (by simp)
  rw [String.le_iff_toList_le] at hba
  revert hba
  decide

/-- C4 amended: the CSV rows appear in store-enumeration order (the code
iterates a Python `set` and never sorts), so the payload is reproducible
only when that enumeration order coincides between runs. -/
theorem claim_C4_rows_in_enumeration_order (now : Int) (stores : List StoreInput) :
    rowsStoreIds (generateRows now stores) = stores.map StoreInput.storeId := by
  induction stores with
  | nil => rfl
  | cons st rest ih =>
      simp only [generateRows, List.map_cons] at ih ⊢
      simp only [rowsStoreIds, List.filterMap_cons] at ih ⊢
      rw [show (mkRow st (perStoreMetrics now st)) =
            ("store_id", Field.str st.storeId) ::
              (mkRow st (perStoreMetrics now st)).tail from rfl]
      simp only [ih]

/-- C10: `get_report_status` returns `str(report.report_data)`
unconditionally, so a record whose `report_data` column is NULL (e.g. a
report still `'Running'`) yields the four-character string `"None"` as the
data component, not an absent value. -/
theorem claim_C10_stringified_none (r : ReportRecord) (h : r.reportData = none) :
    (getReportStatus (some r)).2 = some "None" ∧ "None".length = 4 :=
  ⟨by simp [getReportStatus, pyStr, h], rfl⟩

/-- C10 witness: a `'Running'` record with NULL `report_data`. -/
theorem claim_C10_witness :
    (⟨"Running", none⟩ : ReportRecord).reportData = none ∧
    ((getReportStatus (some ⟨"Running", none⟩)).2 = some "None" ∧
      "None".length = 4) :=
  ⟨rfl, claim_C10_stringified_none ⟨"Running", none⟩ rfl⟩

/-- C5 counterexample: at the spec's S4 input (single `inactive` poll at
`now − 3d`, 24×7 schedule, UTC zone) the emitted `downtime_last_week` is
156.00, not 168.00: the code's business windows cover only the 7 UTC
calendar dates of `now − 0..6` days, each truncated at 23:59:59, so they
miss the half-day before the first midnight and one second per day. -/
theorem claim_C5_counterexample :
    (perStoreMetrics now0 st1).downtimeLastWeek = 156 ∧ ((156 : ℚ) ≠ 168) := by
  constructor
  · have ht : perStoreTotals now0 st1 = (0, 561594000000) := by decide
    simp only [perStoreMetrics, ht, aggregateMetrics]
    norm_num [round2, rndHalfEven, usToHours]
  · norm_num

/-- C5 amended: the carry-back rule does hold — the first segment is
`[now−7d, t(p_1))` tagged `status(p_1)` — but in the S4 scenario the code
emits `downtime_last_week = 156.00` (not 168.00) and
`uptime_last_week = 0.00`. -/
theorem claim_C5_carry_back :
    (∀ (w n t1 : Int) (s1 : String) (rest : List (Int × String)),
        (statusSegments w n ((t1, s1) :: rest)).head? = some ⟨w, t1, s1⟩) ∧
    (perStoreMetrics now0 st1).downtimeLastWeek = 156 ∧
    (perStoreMetrics now0 st1).uptimeLastWeek = 0 := by
  have ht : perStoreTotals now0 st1 = (0, 561594000000) := by decide
  refine ⟨fun w n t1 s1 rest => rfl, ?_, ?_⟩
  · simp only [perStoreMetrics, ht, aggregateMetrics]
    norm_num [round2, rndHalfEven, usToHours]
  · simp only [perStoreMetrics, ht, aggregateMetrics]
    norm_num [round2, rndHalfEven, usToHours]

/-- C6 counterexample: for a 24×7 store in UTC with `now` at noon, the code
builds 7 windows (one per UTC date `now − 0..6` days) while the spec's
8-local-date enumeration builds 8; the two window lists differ. -/
theorem claim_C6_counterexample :
    (businessIntervals now0 (effSchedule none) 0).length = 7 ∧
    (businessIntervalsSpec now0 (effSchedule none) 0).length = 8 ∧
    businessIntervals now0 (effSchedule none) 0 ≠
      businessIntervalsSpec now0 (effSchedule none) 0 :=
  ⟨by decide, by decide, by decide⟩

/-- C6 amended: the business windows are exactly those obtained from the 7
dates `now − i` days (`i < 7`) taken on the UTC calendar — seven dates, not
eight, and UTC dates rather than store-local dates — with each date's
schedule entry localized at the store's offset and converted to UTC. -/
theorem claim_C6_seven_utc_dates (now : Int) (sched : Schedule) (z : Int)
    (w : Int × Int) :
    w ∈ businessIntervals now sched z ↔
      ∃ i : Nat, i < 7 ∧ ∃ o c : Int,
        sched (weekday (now - (i : Int) * dayUs)) = some (o, c) ∧
        w = (dateFloor (now - (i : Int) * dayUs) + o - z,
             dateFloor (now - (i : Int) * dayUs) + c - z) := by
  unfold businessIntervals
  rw [List.mem_filterMap]
  constructor
  · rintro ⟨i, hi, hw⟩
    rw [List.mem_range] at hi
    refine ⟨i, hi, ?_⟩
    cases h : sched (weekday (now - (i : Int) * dayUs)) with
    | none => rw [h] at hw; simp at hw
    | some oc =>
        rw [h] at hw
        simp only [Option.some.injEq] at hw
        exact ⟨oc.1, oc.2, by simp [h], hw.symm⟩
  · rintro ⟨i, hi, o, c, hs, hw⟩
    refine ⟨i, List.mem_range.mpr hi, ?_⟩
    rw [hs, hw]

/-- C8 counterexample: the report row of an empty-poll store contains only
`store_id` and the six metrics; no `"no_polls"` annotation is emitted
anywhere in the row. -/
theorem claim_C8_counterexample :
    mkRow stE (perStoreMetrics now0 stE) =
      [("store_id", Field.str "e"),
       ("uptime_last_hour", Field.num (5571 / 100)),
       ("uptime_last_day", Field.num (2229 / 100)),
       ("uptime_last_week", Field.num 156),
       ("downtime_last_hour", Field.num 0),
       ("downtime_last_day", Field.num 0),
       ("downtime_last_week", Field.num 0)] ∧
    "no_polls" ∉ (mkRow stE (perStoreMetrics now0 stE)).map Prod.fst := by
  have ht : perStoreTotals now0 stE = (561594000000, 0) := by decide
  have h7 : tdDiv 561594000000 7 = 80227714286 := by decide
  have h24 : tdDiv 80227714286 24 = 3342821429 := by decide
  have hz7 : tdDiv 0 7 = 0 := by decide
  have hz24 : tdDiv 0 24 = 0 := by decide
  constructor
  · simp only [mkRow, perStoreMetrics, ht, aggregateMetrics,
      lastDayUs_week_horizon, lastHourUs_week_horizon, h7, h24, hz7, hz24]
    norm_num [stE, round2, rndHalfEven, usToMinutes, usToHours]
  · decide

/-- C8 amended: an empty poll sequence yields the single segment
`[now−7d, now)` tagged `active`, the week uptime equals the full scheduled
overlap and all downtimes are zero, but the emitted row carries no
`"no_polls"` annotation — its keys are exactly `store_id` and the six
metric names. -/
theorem claim_C8_empty_polls (now : Int) (st : StoreInput) (h : st.polls = []) :
    statusSegments (weekStartOf now) now st.polls =
      [⟨weekStartOf now, now, "active"⟩] ∧
    (perStoreTotals now st).1 = scheduledIn now st (weekStartOf now) ∧
    (perStoreTotals now st).2 = 0 ∧
    (perStoreMetrics now st).downtimeLastHour = 0 ∧
    (perStoreMetrics now st).downtimeLastDay = 0 ∧
    (perStoreMetrics now st).downtimeLastWeek = 0 ∧
    (mkRow st (perStoreMetrics now st)).map Prod.fst =
      ["store_id", "uptime_last_hour", "uptime_last_day", "uptime_last_week",
       "downtime_last_hour", "downtime_last_day", "downtime_last_week"] ∧
    "no_polls" ∉ (mkRow st (perStoreMetrics now st)).map Prod.fst := by
  have hz7 : tdDiv 0 7 = 0 := by decide
  have hz24 : tdDiv 0 24 = 0 := by decide
  have hseg : statusSegments (weekStartOf now) now st.polls =
      [⟨weekStartOf now, now, "active"⟩] := by
    rw [h]
    rfl
  have htot : perStoreTotals now st = (scheduledIn now st (weekStartOf now), 0) := by
    unfold perStoreTotals
    rw [hseg]
    simp [accumulate, accStep, segOverlap, scheduledIn]
  have hdz : round2 (usToHours 0) = 0 := by
    rw [show usToHours 0 = 0 by norm_num [usToHours], round2_zero]
  have hdzm : round2 (usToMinutes 0) = 0 := by
    rw [show usToMinutes 0 = 0 by norm_num [usToMinutes], round2_zero]
  refine ⟨hseg, by rw [htot], by rw [htot], ?_, ?_, ?_, rfl, ?_⟩
  · simp only [perStoreMetrics, htot, aggregateMetrics,
      lastDayUs_week_horizon, lastHourUs_week_horizon, hz7, hz24, hdzm]
  · simp only [perStoreMetrics, htot, aggregateMetrics,
      lastDayUs_week_horizon, hz7, hdz]
  · simp only [perStoreMetrics, htot, aggregateMetrics, hdz]
  · rw [show (mkRow st (perStoreMetrics now st)).map Prod.fst =
        ["store_id", "uptime_last_hour", "uptime_last_day", "uptime_last_week",
         "downtime_last_hour", "downtime_last_day", "downtime_last_week"]
      from rfl]
    decide

/-- C8 witness: the empty-poll store `stE` at `now0`. -/
theorem claim_C8_empty_polls_witness :
    stE.polls = [] ∧
    (statusSegments (weekStartOf now0) now0 stE.polls =
        [⟨weekStartOf now0, now0, "active"⟩] ∧
      (perStoreTotals now0 stE).1 = scheduledIn now0 stE (weekStartOf now0) ∧
      (perStoreTotals now0 stE).2 = 0 ∧
      (perStoreMetrics now0 stE).downtimeLastHour = 0 ∧
      (perStoreMetrics now0 stE).downtimeLastDay = 0 ∧
      (perStoreMetrics now0 stE).downtimeLastWeek = 0 ∧
      (mkRow stE (perStoreMetrics now0 stE)).map Prod.fst =
        ["store_id", "uptime_last_hour", "uptime_last_day", "uptime_last_week",
         "downtime_last_hour", "downtime_last_day", "downtime_last_week"] ∧
      "no_polls" ∉ (mkRow stE (perStoreMetrics now0 stE)).map Prod.fst) :=
  ⟨rfl, claim_C8_empty_polls now0 stE rfl⟩

/-- C3 counterexample: a store open all Monday only, with no polls, at
`now0` (a Wednesday noon): the last 24 hours contain no scheduled business
time, yet the code emits `uptime_last_day = 3.43` (the week total divided by
7), violating `uptime_day + downtime_day ≤ scheduled_day + 1 ms`. -/
theorem claim_C3_counterexample :
    (perStoreMetrics now0 st3).uptimeLastDay = 343 / 100 ∧
    (perStoreMetrics now0 st3).downtimeLastDay = 0 ∧
    scheduledIn now0 st3 (now0 - dayUs) = 0 ∧
    ¬ ((perStoreMetrics now0 st3).uptimeLastDay +
        (perStoreMetrics now0 st3).downtimeLastDay ≤
          usToHours (scheduledIn now0 st3 (now0 - dayUs)) + 1 / 3600000) := by
  have ht : perStoreTotals now0 st3 = (86399000000, 0) := by decide
  have h7 : tdDiv 86399000000 7 = 12342714286 := by decide
  have hz7 : tdDiv 0 7 = 0 := by decide
  have hsch : scheduledIn now0 st3 (now0 - dayUs) = 0 := by decide
  have hup : (perStoreMetrics now0 st3).uptimeLastDay = 343 / 100 := by
    simp only [perStoreMetrics, ht, aggregateMetrics, lastDayUs_week_horizon, h7]
    norm_num [round2, rndHalfEven, usToHours]
  have hdn : (perStoreMetrics now0 st3).downtimeLastDay = 0 := by
    simp only [perStoreMetrics, ht, aggregateMetrics, lastDayUs_week_horizon, hz7]
    norm_num [round2, rndHalfEven, usToHours]
  refine ⟨hup, hdn, hsch, ?_⟩
  rw [hup, hdn, hsch]
  norm_num [usToHours]

/-- C3 amended: all six emitted metrics are non-negative, and for the week
window the exact totals satisfy `uptime + downtime = scheduled_week` (so in
particular `≤`), whence the emitted (rounded) week metrics satisfy the
budget bound with a tolerance of 0.01 h (half a final decimal unit per
addend); the day and hour windows are excluded (see the counterexample) and
the 1 ms tolerance is replaced by the 0.01 rounding tolerance. -/
theorem claim_C3_week_budget (now : Int) (st : StoreInput)
    (hchain : List.Chain (· ≤ ·) (weekStartOf now) (st.polls.map Prod.fst ++ [now])) :
    (0 ≤ (perStoreMetrics now st).uptimeLastHour ∧
     0 ≤ (perStoreMetrics now st).uptimeLastDay ∧
     0 ≤ (perStoreMetrics now st).uptimeLastWeek ∧
     0 ≤ (perStoreMetrics now st).downtimeLastHour ∧
     0 ≤ (perStoreMetrics now st).downtimeLastDay ∧
     0 ≤ (perStoreMetrics now st).downtimeLastWeek) ∧
    (perStoreTotals now st).1 + (perStoreTotals now st).2 =
      scheduledIn now st (weekStartOf now) ∧
    (perStoreMetrics now st).uptimeLastWeek +
        (perStoreMetrics now st).downtimeLastWeek ≤
      usToHours (scheduledIn now st (weekStartOf now)) + 1 / 100 := by
  have hu : 0 ≤ (perStoreTotals now st).1 := accumulate_fst_nonneg _ _
  have hd : 0 ≤ (perStoreTotals now st).2 := accumulate_snd_nonneg _ _
  have hu7 : 0 ≤ tdDiv (perStoreTotals now st).1 7 :=
    tdDiv_nonneg 7 hu (by norm_num)
  have hd7 : 0 ≤ tdDiv (perStoreTotals now st).2 7 :=
    tdDiv_nonneg 7 hd (by norm_num)
  have hu24 : 0 ≤ tdDiv (tdDiv (perStoreTotals now st).1 7) 24 :=
    tdDiv_nonneg 24 hu7 (by norm_num)
  have hd24 : 0 ≤ tdDiv (tdDiv (perStoreTotals now st).2 7) 24 :=
    tdDiv_nonneg 24 hd7 (by norm_num)
  have heq : (perStoreTotals now st).1 + (perStoreTotals now st).2 =
      scheduledIn now st (weekStartOf now) := by
    unfold perStoreTotals scheduledIn
    rw [accumulate_add_eq_sum]
    exact segmentsAux_segOverlap_sum st.polls (weekStartOf now) _ now hchain _
  refine ⟨?_, heq, ?_⟩
  · simp only [perStoreMetrics, aggregateMetrics, lastDayUs_week_horizon,
      lastHourUs_week_horizon]
    exact ⟨round2_nonneg (usToMinutes_nonneg hu24),
      round2_nonneg (usToHours_nonneg hu7),
      round2_nonneg (usToHours_nonneg hu),
      round2_nonneg (usToMinutes_nonneg hd24),
      round2_nonneg (usToHours_nonneg hd7),
      round2_nonneg (usToHours_nonneg hd)⟩
  · have h1 : (perStoreMetrics now st).uptimeLastWeek ≤
        usToHours (perStoreTotals now st).1 + 1 / 200 := by
      simp only [perStoreMetrics, aggregateMetrics]
      exact round2_le _
    have h2 : (perStoreMetrics now st).downtimeLastWeek ≤
        usToHours (perStoreTotals now st).2 + 1 / 200 := by
      simp only [perStoreMetrics, aggregateMetrics]
      exact round2_le _
    have h3 : usToHours (perStoreTotals now st).1 +
        usToHours (perStoreTotals now st).2 =
        usToHours (scheduledIn now st (weekStartOf now)) := by
      rw [← usToHours_add, heq]
    linarith

/-- C3 witness: the Monday-only store `st3` (no polls) at `now0`. -/
theorem claim_C3_week_budget_witness :
    List.Chain (· ≤ ·) (weekStartOf now0) (st3.polls.map Prod.fst ++ [now0]) ∧
    ((0 ≤ (perStoreMetrics now0 st3).uptimeLastHour ∧
      0 ≤ (perStoreMetrics now0 st3).uptimeLastDay ∧
      0 ≤ (perStoreMetrics now0 st3).uptimeLastWeek ∧
      0 ≤ (perStoreMetrics now0 st3).downtimeLastHour ∧
      0 ≤ (perStoreMetrics now0 st3).downtimeLastDay ∧
      0 ≤ (perStoreMetrics now0 st3).downtimeLastWeek) ∧
     (perStoreTotals now0 st3).1 + (perStoreTotals now0 st3).2 =
       scheduledIn now0 st3 (weekStartOf now0) ∧
     (perStoreMetrics now0 st3).uptimeLastWeek +
         (perStoreMetrics now0 st3).downtimeLastWeek ≤
       usToHours (scheduledIn now0 st3 (weekStartOf now0)) + 1 / 100) :=
  ⟨List.Chain.cons (by decide) List.Chain.nil,
    claim_C3_week_budget now0 st3 (List.Chain.cons (by decide) List.Chain.nil)⟩

/-- C7: for chronologically ordered polls inside `[now−7d, now]`, the status
segments are non-empty, start at `now−7d`, end at `now`, are contiguous
(each segment's end is the next segment's start), have non-negative length
within bounds, are pairwise non-overlapping, and their union covers exactly
`[now−7d, now)`; by construction each segment carries exactly one status
tag. -/
theorem claim_C7_partition (now : Int) (polls : List (Int × String))
    (hchain : List.Chain (· ≤ ·) (weekStartOf now) (polls.map Prod.fst ++ [now])) :
    statusSegments (weekStartOf now) now polls ≠ [] ∧
    (statusSegments (weekStartOf now) now polls).head?.map Seg.start =
      some (weekStartOf now) ∧
    (∃ s st, (statusSegments (weekStartOf now) now polls).getLast? =
        some ⟨s, now, st⟩) ∧
    List.Chain' (fun a b => a.stop = b.start)
      (statusSegments (weekStartOf now) now polls) ∧
    (∀ sg ∈ statusSegments (weekStartOf now) now polls,
        weekStartOf now ≤ sg.start ∧ sg.start ≤ sg.stop ∧ sg.stop ≤ now) ∧
    List.Pairwise (fun a b => a.stop ≤ b.start)
      (statusSegments (weekStartOf now) now polls) ∧
    (∀ x : Int,
        (∃ sg ∈ statusSegments (weekStartOf now) now polls,
            sg.start ≤ x ∧ x < sg.stop) ↔ weekStartOf now ≤ x ∧ x < now) := by
  unfold statusSegments
  refine ⟨segmentsAux_ne_nil polls _ _ now, ?_,
    segmentsAux_getLast? polls _ _ now, segmentsAux_chain' polls _ _ now,
    segmentsAux_bounds polls _ _ now hchain,
    segmentsAux_pairwise polls _ _ now hchain,
    segmentsAux_coverage polls _ _ now hchain⟩
  rw [segmentsAux_head]
  rfl

/-- C7 witness: the single-poll store `st1`'s polls at `now0`. -/
theorem claim_C7_partition_witness :
    List.Chain (· ≤ ·) (weekStartOf now0) (st1.polls.map Prod.fst ++ [now0]) ∧
    (statusSegments (weekStartOf now0) now0 st1.polls ≠ [] ∧
     (statusSegments (weekStartOf now0) now0 st1.polls).head?.map Seg.start =
       some (weekStartOf now0) ∧
     (∃ s st, (statusSegments (weekStartOf now0) now0 st1.polls).getLast? =
         some ⟨s, now0, st⟩) ∧
     List.Chain' (fun a b => a.stop = b.start)
       (statusSegments (weekStartOf now0) now0 st1.polls) ∧
     (∀ sg ∈ statusSegments (weekStartOf now0) now0 st1.polls,
         weekStartOf now0 ≤ sg.start ∧ sg.start ≤ sg.stop ∧ sg.stop ≤ now0) ∧
     List.Pairwise (fun a b => a.stop ≤ b.start)
       (statusSegments (weekStartOf now0) now0 st1.polls) ∧
     (∀ x : Int,
         (∃ sg ∈ statusSegments (weekStartOf now0) now0 st1.polls,
             sg.start ≤ x ∧ x < sg.stop) ↔ weekStartOf now0 ≤ x ∧ x < now0)) :=
  ⟨List.Chain.cons (by decide) (List.Chain.cons (by decide) List.Chain.nil),
    claim_C7_partition now0 st1.polls
      (List.Chain.cons (by decide) (List.Chain.cons (by decide) List.Chain.nil))⟩

/-- C9 counterexample: a store with 100 s of weekly uptime: the emitted
`uptime_last_hour` is 0.01 min while `uptime_last_day` rounds to 0.00 h, so
`uptime_last_hour/60 ≤ uptime_last_day` fails for the emitted metrics. -/
theorem claim_C9_counterexample :
    (perStoreMetrics now0 st9).uptimeLastHour = 1 / 100 ∧
    (perStoreMetrics now0 st9).uptimeLastDay = 0 ∧
    ¬ ((perStoreMetrics now0 st9).uptimeLastHour / 60 ≤
        (perStoreMetrics now0 st9).uptimeLastDay) := by
  have ht : perStoreTotals now0 st9 = (100000000, 0) := by decide
  have h7 : tdDiv 100000000 7 = 14285714 := by decide
  have h24 : tdDiv 14285714 24 = 595238 := by decide
  have hh : (perStoreMetrics now0 st9).uptimeLastHour = 1 / 100 := by
    simp only [perStoreMetrics, ht, aggregateMetrics, lastDayUs_week_horizon,
      lastHourUs_week_horizon, h7, h24]
    norm_num [round2, rndHalfEven, usToMinutes]
  have hdy : (perStoreMetrics now0 st9).uptimeLastDay = 0 := by
    simp only [perStoreMetrics, ht, aggregateMetrics, lastDayUs_week_horizon, h7]
    norm_num [round2, rndHalfEven, usToHours]
  refine ⟨hh, hdy, ?_⟩
  rw [hh, hdy]
  norm_num

/-- C9 amended: monotone refinement holds for the pre-rounding aggregates
(`hour/60 ≤ day ≤ week` in consistent units) and for the emitted
day-vs-week metrics (rounding is monotone at one granularity); only the
cross-granularity comparison `uptime_last_hour/60 ≤ uptime_last_day` of the
emitted values can fail, by less than one rounding unit. -/
theorem claim_C9_monotone_refinement (now : Int) (st : StoreInput) :
    usToMinutes (lastHourUs now (weekStartOf now)
        (lastDayUs now (weekStartOf now) (perStoreTotals now st).1)) / 60 ≤
      usToHours (lastDayUs now (weekStartOf now) (perStoreTotals now st).1) ∧
    usToHours (lastDayUs now (weekStartOf now) (perStoreTotals now st).1) ≤
      usToHours (perStoreTotals now st).1 ∧
    (perStoreMetrics now st).uptimeLastDay ≤
      (perStoreMetrics now st).uptimeLastWeek ∧
    usToMinutes (lastHourUs now (weekStartOf now)
        (lastDayUs now (weekStartOf now) (perStoreTotals now st).2)) / 60 ≤
      usToHours (lastDayUs now (weekStartOf now) (perStoreTotals now st).2) ∧
    usToHours (lastDayUs now (weekStartOf now) (perStoreTotals now st).2) ≤
      usToHours (perStoreTotals now st).2 ∧
    (perStoreMetrics now st).downtimeLastDay ≤
      (perStoreMetrics now st).downtimeLastWeek := by
  have hu : 0 ≤ (perStoreTotals now st).1 := accumulate_fst_nonneg _ _
  have hd : 0 ≤ (perStoreTotals now st).2 := accumulate_snd_nonneg _ _
  have hu7 : 0 ≤ tdDiv (perStoreTotals now st).1 7 :=
    tdDiv_nonneg 7 hu (by norm_num)
  have hd7 : 0 ≤ tdDiv (perStoreTotals now st).2 7 :=
    tdDiv_nonneg 7 hd (by norm_num)
  refine ⟨?_, ?_, ?_, ?_, ?_, ?_⟩
  · rw [lastDayUs_week_horizon, lastHourUs_week_horizon, usToMinutes_div_60]
    exact usToHours_mono (tdDiv_le_self24 hu7)
  · rw [lastDayUs_week_horizon]
    exact usToHours_mono (tdDiv_le_self7 hu)
  · simp only [perStoreMetrics, aggregateMetrics, lastDayUs_week_horizon]
    exact round2_mono (usToHours_mono (tdDiv_le_self7 hu))
  · rw [lastDayUs_week_horizon, lastHourUs_week_horizon, usToMinutes_div_60]
    exact usToHours_mono (tdDiv_le_self24 hd7)
  · rw [lastDayUs_week_horizon]
    exact usToHours_mono (tdDiv_le_self7 hd)
  · simp only [perStoreMetrics, aggregateMetrics, lastDayUs_week_horizon]
    exact round2_mono (usToHours_mono (tdDiv_le_self7 hd))

end StoreMonitor
